import Mathlib

/-!
# network-scanner: a verification development

Shallow embedding of `internal/scanner/tcp.go` and of `parsePorts` /
the range dispatch of `cmd/scanner/main.go`.

* Go `int` is `Int`; the only arithmetic that can overflow (`port++` in the
  producer loop of `ScanPortRange`) wraps explicitly at 64 bits.
* The flag `parsePorts` takes apart is a list of characters (`List Char`).
* The network is an oracle (`Net`): the answer of every dial is a parameter.
* `ScanPortRange` is a small-step interleaving semantics: one main thread,
  the worker goroutines, the buffered channel, the mutex and the WaitGroup.
-/

set_option linter.unusedTactic false
set_option linter.unreachableTactic false
set_option linter.unnecessarySeqFocus false
set_option linter.unusedVariables false

namespace Scanner

/-! ## Standard-library functions used by the source -/

/-- Go `time.Second`, a `time.Duration` counted in nanoseconds. -/
def Second : Int := 1000000000

/-- Go `strings.Contains(s, "-")` and friends, for a one-character needle. -/
def Contains (s : List Char) (c : Char) : Bool :=
  s.any (fun x => x == c)

/-- Go `strings.Split(s, sep)` for a one-character separator: the pieces
between the separators, always at least one piece. -/
def Split (sep : Char) : List Char → List (List Char)
  | [] => [[]]
  | c :: cs =>
    if c = sep then [] :: Split sep cs
    else
      match Split sep cs with
      | [] => [[c]]
      | h :: t => (c :: h) :: t

/-- Go `unicode.IsSpace`. -/
def IsSpace (c : Char) : Bool :=
  let n := c.toNat
  (9 ≤ n && n ≤ 13) || n == 32 || n == 0x85 || n == 0xA0 || n == 0x1680 ||
  (0x2000 ≤ n && n ≤ 0x200A) || n == 0x2028 || n == 0x2029 || n == 0x202F ||
  n == 0x205F || n == 0x3000

/-- Go `strings.TrimSpace`: drop leading and trailing white space. -/
def TrimSpace (s : List Char) : List Char :=
  ((s.dropWhile IsSpace).reverse.dropWhile IsSpace).reverse

/-- Value of a string of decimal digits, `none` when a character is not a digit. -/
def parseDigits : List Char → Nat → Option Nat
  | [], acc => some acc
  | c :: cs, acc =>
    if 48 ≤ c.toNat ∧ c.toNat ≤ 57 then parseDigits cs (acc * 10 + (c.toNat - 48))
    else none

/-- Go `strconv.Atoi` on a 64-bit platform: an optional sign, at least one
decimal digit, and a value that fits `int`; `none` stands for `err != nil`. -/
def Atoi (s : List Char) : Option Int :=
  let (neg, body) :=
    match s with
    | '-' :: rest => (true, rest)
    | '+' :: rest => (false, rest)
    | _ => (false, s)
  if body = [] then none
  else
    match parseDigits body 0 with
    | none => none
    | some n =>
      let v : Int := if neg then -(n : Int) else (n : Int)
      if -9223372036854775808 ≤ v ∧ v ≤ 9223372036854775807 then some v else none

/-- Go `sort.Ints`: sorts the slice in increasing order. -/
def sortInts (xs : List Int) : List Int :=
  xs.insertionSort (fun a b => a ≤ b)

/-! ## `cmd/scanner/main.go`: `parsePorts` and the range dispatch -/

/-- The `fmt.Errorf` values `parsePorts` can return. -/
inductive ParseError where
  | invalidRangeFormat
  | invalidStartPort
  | invalidEndPort
  | startGreaterThanEnd
  | rangeOutOfBounds
  | invalidPortNumber (portStr : List Char)
  | portOutOfRange (port : Int)
  deriving DecidableEq, Repr

/-- The loop of `parsePorts` over the comma-separated pieces. -/
def parsePortsList : List (List Char) → List Int → Except ParseError (List Int)
  | [], ports => .ok ports
  | portStr :: rest, ports =>
    let portStr := TrimSpace portStr
    if portStr = [] then parsePortsList rest ports
    else
      match Atoi portStr with
      | none => .error (.invalidPortNumber portStr)
      | some port =>
        if port < 1 ∨ port > 65535 then .error (.portOutOfRange port)
        else parsePortsList rest (ports ++ [port])

/-- Go `parsePorts`: a range `a-b` gives `[a, b]`, a comma list gives its ports. -/
def parsePorts (portsFlag : List Char) : Except ParseError (List Int) :=
  if Contains portsFlag '-' then
    match Split '-' portsFlag with
    | [p0, p1] =>
      match Atoi p0 with
      | none => .error .invalidStartPort
      | some start =>
        match Atoi p1 with
        | none => .error .invalidEndPort
        | some end_ =>
          if start > end_ then .error .startGreaterThanEnd
          else if start < 1 ∨ end_ > 65535 then .error .rangeOutOfBounds
          else .ok [start, end_]
    | _ => .error .invalidRangeFormat
  else
    parsePortsList (Split ',' portsFlag) []

/-- The branch of `rootCmd.Run` that calls `ScanPortRange`: the pair
`(ports[0], ports[len(ports)-1])` when the flag has a hyphen and at least two
ports were parsed, `none` when the individual ports are scanned instead. -/
def rangeArgs (portRangeStr : List Char) (ports : List Int) : Option (Int × Int) :=
  if Contains portRangeStr '-' && decide (ports.length ≥ 2) then
    some (ports.getD 0 0, ports.getD (ports.length - 1) 0)
  else none

/-! ## `internal/scanner/tcp.go`: configuration, probe and liveness check -/

/-- Initial value of the package variable `numWorkers`. -/
def defaultNumWorkers : Int := 20

/-- Go `SetConcurrentScanners`, as a function from the old value of
`numWorkers` to the new one. -/
def SetConcurrentScanners (numWorkers : Int) (workers : Int) : Int :=
  if workers > 0 then workers else numWorkers

/-- The network, as seen by the scanner. `DialTimeout k network target timeout`
is `true` when the `k`-th call of the run, `net.DialTimeout(network, target,
timeout)`, gives `err == nil`; the other two fields answer
`net.ResolveIPAddr` (`none` is an error) and `net.DialIP`. -/
structure Net where
  DialTimeout : Nat → String → String → Int → Bool
  ResolveIPAddr : String → String → Option String
  DialIP : String → String → Bool

/-- Go `ScanTCPPort`, the `k`-th probe of the run. -/
def ScanTCPPort (net : Net) (k : Nat) (host : String) (port : Int) (timeout : Int) : Bool :=
  let target := host ++ ":" ++ toString port
  if net.DialTimeout k "tcp" target timeout = false then false
  else true

/-- Go `pingHost`. -/
def pingHost (net : Net) (host : String) : Bool :=
  match net.ResolveIPAddr "ip4:icmp" host with
  | none => false
  | some addr =>
    if net.DialIP "ip4:icmp" addr = false then false
    else true

/-- A call made by `IsHostAlive`, recorded in the order of the calls. -/
inductive Call where
  | ScanTCPPort (host : String) (port : Int) (timeout : Int)
  | pingHost (host : String)
  deriving DecidableEq, Repr

/-- The `for _, port := range commonPorts` loop of `IsHostAlive`: `true` at
the first probe that succeeds, with the calls made so far. -/
def IsHostAliveLoop (net : Net) (host : String) (timeout : Int) :
    List Int → List Call → Bool × List Call
  | [], calls => (false, calls)
  | port :: rest, calls =>
    if ScanTCPPort net calls.length host port timeout then
      (true, calls ++ [Call.ScanTCPPort host port timeout])
    else IsHostAliveLoop net host timeout rest (calls ++ [Call.ScanTCPPort host port timeout])

/-- Go `IsHostAlive`, returning its verdict and the calls it made. -/
def IsHostAlive (net : Net) (host : String) : Bool × List Call :=
  let commonPorts : List Int := [80, 443, 22]
  let timeout := 1 * Second
  match IsHostAliveLoop net host timeout commonPorts [] with
  | (true, calls) => (true, calls)
  | (false, calls) => (pingHost net host, calls ++ [Call.pingHost host])

/-! ## `internal/scanner/tcp.go`: `ScanPortRange` as an interleaving semantics -/

/-- Go `port++` on a 64-bit `int`: two's-complement wrap-around. -/
def wrapInt64 (x : Int) : Int :=
  (x + 9223372036854775808) % 18446744073709551616 - 9223372036854775808

/-- Capacity of the channel, `make(chan int, 100)`. -/
def jobsCap : Nat := 100

/-- What one call `ScanPortRange(host, startPort, endPort)` reads: its
arguments, the package variable `numWorkers` and the network. -/
structure Config where
  net : Net
  host : String
  startPort : Int
  endPort : Int
  numWorkers : Int

/-- Where a worker goroutine stands in its body. -/
inductive WorkerPC where
  /-- at the header of `for port := range jobs` -/
  | recv
  /-- received `port`, about to call `ScanTCPPort(host, port, 2*time.Second)` -/
  | scan (port : Int)
  /-- inside `ScanTCPPort`, which will return `ok` -/
  | probing (port : Int) (ok : Bool)
  /-- the probe returned true, at `mutex.Lock()` -/
  | lock (port : Int)
  /-- holds the mutex, at `openPorts = append(openPorts, port)` -/
  | append (port : Int)
  /-- holds the mutex, at `mutex.Unlock()` -/
  | unlock
  /-- the loop has ended, the deferred `wg.Done()` is pending -/
  | exit
  /-- the goroutine has terminated -/
  | done
  deriving DecidableEq, Repr

/-- Where the calling goroutine stands in the body of `ScanPortRange`. -/
inductive MainPC where
  /-- at the test `i < numWorkers` of the loop that starts the workers -/
  | spawn (i : Int)
  /-- at the test `port <= endPort` of the loop that sends the jobs -/
  | send (port : Int)
  /-- at `close(jobs)` -/
  | close
  /-- at `wg.Wait()` -/
  | wait
  /-- at `sort.Ints(openPorts)` -/
  | sort
  /-- `ScanPortRange` has returned `result` -/
  | returned (result : List Int)
  deriving DecidableEq, Repr

/-- The state of one call of `ScanPortRange`. `probed` is the log of the calls
of `ScanTCPPort`, in the order in which they were made. -/
structure State where
  main : MainPC
  workers : List WorkerPC
  jobs : List Int
  closed : Bool
  wg : Int
  mutex : Bool
  openPorts : List Int
  probed : List Int
  deriving DecidableEq, Repr

/-- A scheduling decision: which goroutine takes the next step. -/
inductive Event where
  | main
  | worker (i : Nat)
  deriving DecidableEq, Repr

/-- Entry of `ScanPortRange`: nil slice, unlocked mutex, zero WaitGroup,
empty open channel, no goroutine started. -/
def init : State :=
  { main := .spawn 0, workers := [], jobs := [], closed := false, wg := 0,
    mutex := false, openPorts := [], probed := [] }

/-- One step of the calling goroutine; `none` when it cannot move (blocked
on the full channel or on the WaitGroup, returned, or about to panic). The
counter `i` stays below `numWorkers`, so `i++` cannot overflow; `port++` wraps. -/
def mainStep (c : Config) (s : State) : Option State :=
  match s.main with
  | .spawn i =>
    if i < c.numWorkers then
      some { s with wg := s.wg + 1, workers := s.workers ++ [WorkerPC.recv], main := .spawn (i + 1) }
    else some { s with main := .send c.startPort }
  | .send port =>
    if port ≤ c.endPort then
      if s.closed then none
      else if s.jobs.length < jobsCap then
        some { s with jobs := s.jobs ++ [port], main := .send (wrapInt64 (port + 1)) }
      else none
    else some { s with main := .close }
  | .close => if s.closed then none else some { s with closed := true, main := .wait }
  | .wait => if s.wg = 0 then some { s with main := .sort } else none
  | .sort => some { s with main := .returned (sortInts s.openPorts) }
  | .returned _ => none

/-- One step of the body of a worker goroutine standing at `pc`: the new
shared state and the new position; `none` when the worker cannot move
(blocked on the empty open channel or on the mutex, or terminated). -/
def workerBody (c : Config) (s : State) : WorkerPC → Option (State × WorkerPC)
  | .recv =>
    match s.jobs with
    | port :: rest => some ({ s with jobs := rest }, .scan port)
    | [] => if s.closed then some (s, .exit) else none
  | .scan port =>
    some ({ s with probed := s.probed ++ [port] },
      .probing port (ScanTCPPort c.net s.probed.length c.host port (2 * Second)))
  | .probing port ok => if ok then some (s, .lock port) else some (s, .recv)
  | .lock port => if s.mutex then none else some ({ s with mutex := true }, .append port)
  | .append port => some ({ s with openPorts := s.openPorts ++ [port] }, .unlock)
  | .unlock => some ({ s with mutex := false }, .recv)
  | .exit => some ({ s with wg := s.wg - 1 }, .done)
  | .done => none

/-- One step of the `i`-th worker goroutine. -/
def workerStep (c : Config) (s : State) (i : Nat) : Option State :=
  match s.workers[i]? with
  | none => none
  | some pc =>
    match workerBody c s pc with
    | none => none
    | some (t, pc') => some { t with workers := t.workers.set i pc' }

/-- One step of the goroutine the scheduler picked. -/
def step (c : Config) (s : State) : Event → Option State
  | .main => mainStep c s
  | .worker i => workerStep c s i

/-- Run a schedule from `s`; `none` when it picks a goroutine that cannot move. -/
def runFrom (c : Config) (s : State) : List Event → Option State
  | [] => some s
  | e :: es =>
    match step c s e with
    | none => none
    | some t => runFrom c t es

/-- Run a schedule from the entry of `ScanPortRange`. -/
def run (c : Config) (sched : List Event) : Option State :=
  runFrom c init sched

/-- The ports `a, a+1, ..., b`, ascending (empty when `b < a`). -/
def interval (a b : Int) : List Int :=
  (List.range (b + 1 - a).toNat).map (fun (k : Nat) => a + (k : Int))

/-- The probes of the log that reported an open port, `k` being the index
of the first probe of the list. -/
def hitsFrom (c : Config) : Nat → List Int → List Int
  | _, [] => []
  | k, p :: ps =>
    if ScanTCPPort c.net k c.host p (2 * Second) then p :: hitsFrom c (k + 1) ps
    else hitsFrom c (k + 1) ps

/-! ## Bookkeeping over the workers, used by the invariant -/

/-- Sum of a weight over the worker goroutines. -/
def sumW (f : WorkerPC → Nat) (ws : List WorkerPC) : Nat :=
  (ws.map f).sum

/-- Port `q` was received by this worker and is not probed yet. -/
def heldCnt (q : Int) : WorkerPC → Nat
  | .scan p => if p = q then 1 else 0
  | _ => 0

/-- Port `q` was found open by this worker and is not appended yet. -/
def foundCnt (q : Int) : WorkerPC → Nat
  | .probing p true => if p = q then 1 else 0
  | .lock p => if p = q then 1 else 0
  | .append p => if p = q then 1 else 0
  | _ => 0

/-- The worker holds the mutex. -/
def holdsMutex : WorkerPC → Nat
  | .append _ => 1
  | .unlock => 1
  | _ => 0

/-- The worker has not called `wg.Done()` yet. -/
def live : WorkerPC → Nat
  | .done => 0
  | _ => 1

/-- The worker has left its `range jobs` loop. -/
def leftLoop : WorkerPC → Nat
  | .exit => 1
  | .done => 1
  | _ => 0

/-- The worker is inside `ScanTCPPort`. -/
def inFlight : WorkerPC → Nat
  | .probing _ _ => 1
  | _ => 0

/-- Steps the worker can still take without receiving another job. -/
def workerFuel : WorkerPC → Nat
  | .recv => 2
  | .scan _ => 8
  | .probing _ _ => 7
  | .lock _ => 6
  | .append _ => 5
  | .unlock => 3
  | .exit => 1
  | .done => 0

/-- Steps the calling goroutine can still take, with the steps it will
cause in the workers. -/
def mainFuel (c : Config) : MainPC → Nat
  | .spawn i => 3 * (c.numWorkers - i).toNat + 8 * (c.endPort + 1 - c.startPort).toNat + 5
  | .send port => 8 * (c.endPort + 1 - port).toNat + 4
  | .close => 3
  | .wait => 2
  | .sort => 1
  | .returned _ => 0

/-- A bound on the number of steps left in any execution from `s`. -/
def fuel (c : Config) (s : State) : Nat :=
  mainFuel c s.main + 7 * s.jobs.length + sumW workerFuel s.workers

/-- Number of times port `q` has been sent on the channel. -/
def sentCnt (c : Config) (q : Int) : MainPC → Nat
  | .spawn _ => 0
  | .send port => if c.startPort ≤ q ∧ q < port then 1 else 0
  | _ => if c.startPort ≤ q ∧ q ≤ c.endPort then 1 else 0

/-- The channel has been closed by the calling goroutine. -/
def pastClose : MainPC → Bool
  | .wait => true
  | .sort => true
  | .returned _ => true
  | _ => false

/-- The calling goroutine has passed `wg.Wait()`. -/
def pastWait : MainPC → Bool
  | .sort => true
  | .returned _ => true
  | _ => false

/-- `ScanPortRange` has returned. -/
def isReturned : MainPC → Bool
  | .returned _ => true
  | _ => false

/-- The arguments are 64-bit integers and `endPort` is not the largest one,
so that `port++` never wraps. -/
def NoWrap (c : Config) : Prop :=
  -9223372036854775808 ≤ c.startPort ∧ c.endPort < 9223372036854775807

/-- Number of worker goroutines started so far. -/
def startedCnt (c : Config) : MainPC → Nat
  | .spawn i => i.toNat
  | _ => c.numWorkers.toNat

/-- The loop counters of the calling goroutine are within their loops. -/
def PosOK (c : Config) : MainPC → Prop
  | .spawn i => 0 ≤ i ∧ (i ≤ c.numWorkers ∨ i = 0)
  | .send p => c.startPort ≤ p ∧ (p ≤ c.endPort + 1 ∨ p = c.startPort)
  | _ => True

/-- The value returned is the sorted slice. -/
def ResultOK (openPorts : List Int) : MainPC → Prop
  | .returned r => r = sortInts openPorts
  | _ => True

/-- The invariant of `ScanPortRange`, the counting parts for the port `q`. -/
structure Inv (c : Config) (q : Int) (s : State) : Prop where
  jobsCons : s.probed.count q + s.jobs.count q + sumW (heldCnt q) s.workers
    = sentCnt c q s.main
  hitsCons : s.openPorts.count q + sumW (foundCnt q) s.workers
    = (hitsFrom c 0 s.probed).count q
  wgLive : s.wg = (sumW live s.workers : Nat)
  mutexHeld : sumW holdsMutex s.workers = if s.mutex then 1 else 0
  started : s.workers.length = startedCnt c s.main
  closedIff : s.closed = pastClose s.main
  drained : 0 < sumW leftLoop s.workers → s.closed = true ∧ s.jobs = []
  position : PosOK c s.main
  joined : pastWait s.main = true → s.wg = 0
  result : ResultOK s.openPorts s.main
  capacity : s.jobs.length ≤ jobsCap

/-- The calling goroutine has left the loop that starts the workers. -/
def pastSpawn : MainPC → Bool
  | .spawn _ => false
  | _ => true

/-- The counter of the loop that starts the workers is within the loop. -/
def SpawnOK (c : Config) : MainPC → Prop
  | .spawn i => 0 ≤ i ∧ (i ≤ c.numWorkers ∨ i = 0)
  | _ => True

/-- One goroutine has been started per completed iteration of the first loop. -/
def SpawnInv (c : Config) (s : State) : Prop :=
  s.workers.length = startedCnt c s.main ∧ SpawnOK c s.main

/-- Every schedule that runs is short, can be continued until
`ScanPortRange` returns, and satisfies `P` whenever it has returned: the
total-correctness reading of "`ScanPortRange` returns a result with `P`". -/
def AlwaysReturns (c : Config) (bound : Nat) (P : State → List Int → Prop) : Prop :=
  ∀ sched s, run c sched = some s →
    sched.length ≤ bound ∧
    (∃ more t r, run c (sched ++ more) = some t ∧ t.main = .returned r) ∧
    (∀ r, s.main = .returned r → P s r)

/-- Each element is strictly less than the next. -/
def StrictlyAscending (xs : List Int) : Prop :=
  xs.Chain' (fun a b => a < b)

/-! ## Concrete inputs -/

/-- A network in which every dial succeeds and no address resolves. -/
def netAllOpen : Net :=
  { DialTimeout := fun _ _ _ _ => true
    ResolveIPAddr := fun _ _ => none
    DialIP := fun _ _ => false }

/-- A network in which every dial fails and no address resolves. -/
def netAllClosed : Net :=
  { DialTimeout := fun _ _ _ _ => false
    ResolveIPAddr := fun _ _ => none
    DialIP := fun _ _ => false }

/-- A network in which only the third dial of a run succeeds. -/
def netThirdDial : Net :=
  { DialTimeout := fun k _ _ _ => k == 2
    ResolveIPAddr := fun _ _ => none
    DialIP := fun _ _ => false }

/-- A host that refuses every TCP connection and answers on the ICMP socket. -/
def netPingOnly : Net :=
  { DialTimeout := fun _ _ _ _ => false
    ResolveIPAddr := fun _ host => some host
    DialIP := fun _ _ => true }

/-- A host that refuses every TCP connection, where the address resolves and
the raw ICMP socket cannot be opened (no privilege). -/
def netNoRawSocket : Net :=
  { DialTimeout := fun _ _ _ _ => false
    ResolveIPAddr := fun _ host => some host
    DialIP := fun _ _ => false }

/-- A target on which exactly the ports 22 and 443 accept connections. -/
def netSshHttps : Net :=
  { DialTimeout := fun _ _ target _ => target == "example.com:22" || target == "example.com:443"
    ResolveIPAddr := fun _ _ => none
    DialIP := fun _ _ => false }

/-- Scan of the ports 1 to 1000 of that target with 10 workers. -/
def scenarioConfig : Config :=
  { net := netSshHttps, host := "example.com", startPort := 1, endPort := 1000, numWorkers := 10 }

/-- Scan of the ports 7 and 8, both open, with 2 workers. -/
def smallConfig : Config :=
  { net := netAllOpen, host := "h", startPort := 7, endPort := 8, numWorkers := 2 }

/-- A schedule of `smallConfig` in which the second worker finds port 8
and appends it before the first worker appends port 7. -/
def smallSched : List Event :=
  [.main, .main, .main, .main, .main,
   .worker 0, .worker 1, .worker 0, .worker 1, .worker 0, .worker 1,
   .worker 1, .worker 1, .worker 1, .worker 0, .worker 0, .worker 0,
   .main, .main, .worker 0, .worker 1, .worker 0, .worker 1,
   .main, .main]

/-- The state in which `smallSched` leaves `smallConfig`. -/
def smallFinal : State :=
  { main := .returned [7, 8], workers := [.done, .done], jobs := [], closed := true, wg := 0,
    mutex := false, openPorts := [8, 7], probed := [7, 8] }

/-! ## Lists and sorting -/

theorem sumW_nil (f : WorkerPC → Nat) : sumW f [] = 0 := rfl

theorem sumW_cons (f : WorkerPC → Nat) (w : WorkerPC) (ws : List WorkerPC) :
    sumW f (w :: ws) = f w + sumW f ws := by
  simp [sumW]

theorem sumW_append (f : WorkerPC → Nat) (l1 l2 : List WorkerPC) :
    sumW f (l1 ++ l2) = sumW f l1 + sumW f l2 := by
  simp [sumW]

theorem sumW_pos_iff (f : WorkerPC → Nat) (ws : List WorkerPC) :
    0 < sumW f ws ↔ ∃ w ∈ ws, 0 < f w := by
  induction ws with
  | nil => simp [sumW_nil]
  | cons w ws ih =>
    simp only [sumW_cons, List.mem_cons, exists_eq_or_imp]
    rw [← ih]; omega

theorem sumW_le_length (f : WorkerPC → Nat) (hf : ∀ w, f w ≤ 1) (ws : List WorkerPC) :
    sumW f ws ≤ ws.length := by
  induction ws with
  | nil => simp [sumW_nil]
  | cons w ws ih =>
    have := hf w
    simp only [sumW_cons, List.length_cons]; omega

theorem getElem?_split {α : Type} (ws : List α) (i : Nat) (w : α) (h : ws[i]? = some w) :
    ∃ l1 l2, ws = l1 ++ w :: l2 ∧ l1.length = i ∧ ∀ v, ws.set i v = l1 ++ v :: l2 := by
  induction ws generalizing i with
  | nil => simp at h
  | cons a ws ih =>
    cases i with
    | zero =>
      simp at h
      exact ⟨[], ws, by simp [h], rfl, fun v => by simp⟩
    | succ i =>
      simp at h
      obtain ⟨l1, l2, h1, h2, h3⟩ := ih i h
      refine ⟨a :: l1, l2, by simp [h1], by simp [h2], fun v => ?_⟩
      simp [h3 v]

theorem hitsFrom_append (c : Config) (k : Nat) (l : List Int) (p : Int) :
    hitsFrom c k (l ++ [p]) = hitsFrom c k l ++
      (if ScanTCPPort c.net (k + l.length) c.host p (2 * Second) then [p] else []) := by
  induction l generalizing k with
  | nil => simp [hitsFrom]
  | cons a l ih =>
    have e : k + 1 + l.length = k + (l.length + 1) := by omega
    have h := ih (k + 1)
    rw [e] at h
    show hitsFrom c k (a :: (l ++ [p])) = _
    simp only [hitsFrom, h, List.length_cons]
    split <;> simp

theorem hitsFrom_sublist (c : Config) (k : Nat) (l : List Int) :
    (hitsFrom c k l).Sublist l := by
  induction l generalizing k with
  | nil => simp [hitsFrom]
  | cons a l ih =>
    simp only [hitsFrom]
    split
    · exact (ih (k + 1)).cons₂ a
    · exact (ih (k + 1)).cons a

/-! ## The invariant holds in every reachable state -/

theorem wrapInt64_eq (x : Int) (h1 : -9223372036854775808 ≤ x) (h2 : x ≤ 9223372036854775807) :
    wrapInt64 x = x := by
  unfold wrapInt64
  omega

theorem inv_init (c : Config) (q : Int) : Inv c q init := by
  constructor <;>
    simp [init, sumW_nil, sentCnt, hitsFrom, pastClose, pastWait, jobsCap, startedCnt, PosOK,
      ResultOK]

theorem inv_mainStep (c : Config) (hw : NoWrap c) (q : Int) (s t : State) (hi : Inv c q s)
    (h : mainStep c s = some t) : Inv c q t := by
  obtain ⟨main, workers, jobs, closed, wg, mutex, openPorts, probed⟩ := s
  obtain ⟨h1, h2, h3, h4, h5, h6, h7, h8, h9, h10, h11⟩ := hi
  simp only at h1 h2 h3 h4 h5 h6 h7 h8 h9 h10 h11
  unfold NoWrap at hw
  subst h6
  cases main with
  | spawn i =>
    simp only [mainStep] at h
    split at h <;> cases h <;> constructor <;>
      simp [sumW_append, sumW_cons, sumW_nil, heldCnt, foundCnt, holdsMutex, live, leftLoop,
        sentCnt, startedCnt, pastClose, pastWait, PosOK, ResultOK] at * <;>
      (try omega) <;> (try assumption) <;> (try tauto) <;>
      (try (split_ifs at * <;> omega))
  | send p =>
    simp only [mainStep] at h
    have hp : p ≤ c.endPort → wrapInt64 (p + 1) = p + 1 := by
      intro hle
      simp only [PosOK] at h8
      exact wrapInt64_eq _ (by omega) (by omega)
    split at h
    · rename_i hle
      rw [hp hle] at h
      split at h
      · cases h
      · split at h
        · cases h
          constructor <;>
            simp [sumW_append, sumW_cons, sumW_nil, heldCnt, foundCnt, holdsMutex, live, leftLoop,
              sentCnt, startedCnt, pastClose, pastWait, PosOK, ResultOK, List.count_cons, jobsCap] at * <;>
            (try omega) <;> (try assumption) <;> (try tauto) <;>
      (try (split_ifs at * <;> omega))
        · cases h
    · cases h
      constructor <;>
        simp [sumW_append, sumW_cons, sumW_nil, heldCnt, foundCnt, holdsMutex, live, leftLoop,
          sentCnt, startedCnt, pastClose, pastWait, PosOK, ResultOK] at * <;>
        (try omega) <;> (try assumption) <;> (try tauto) <;>
      (try (split_ifs at * <;> omega))
  | close =>
    simp only [mainStep] at h
    split at h <;> cases h <;> constructor <;>
      simp [sumW_append, sumW_cons, sumW_nil, heldCnt, foundCnt, holdsMutex, live, leftLoop,
        sentCnt, startedCnt, pastClose, pastWait, PosOK, ResultOK] at * <;>
      (try omega) <;> (try assumption) <;> (try tauto) <;>
      (try (split_ifs at * <;> omega))
  | wait =>
    simp only [mainStep] at h
    split at h <;> cases h <;> constructor <;>
      simp [sumW_append, sumW_cons, sumW_nil, heldCnt, foundCnt, holdsMutex, live, leftLoop,
        sentCnt, startedCnt, pastClose, pastWait, PosOK, ResultOK] at * <;>
      (try omega) <;> (try assumption) <;> (try tauto) <;>
      (try (split_ifs at * <;> omega))
  | sort =>
    simp only [mainStep] at h
    cases h
    constructor <;>
      simp [sumW_append, sumW_cons, sumW_nil, heldCnt, foundCnt, holdsMutex, live, leftLoop,
        sentCnt, startedCnt, pastClose, pastWait, PosOK, ResultOK] at * <;>
      (try omega) <;> (try assumption) <;> (try tauto) <;>
      (try (split_ifs at * <;> omega))
  | returned r => simp [mainStep] at h

theorem inv_workerStep (c : Config) (q : Int) (s t : State) (i : Nat) (hi : Inv c q s)
    (h : workerStep c s i = some t) : Inv c q t := by
  obtain ⟨main, workers, jobs, closed, wg, mutex, openPorts, probed⟩ := s
  obtain ⟨h1, h2, h3, h4, h5, h6, h7, h8, h9, h10, h11⟩ := hi
  simp only at h1 h2 h3 h4 h5 h6 h7 h8 h9 h10 h11
  subst h6
  simp only [workerStep] at h
  split at h
  · cases h
  · rename_i pc hpc
    obtain ⟨l1, l2, e, hl, hset⟩ := getElem?_split _ _ _ hpc
    subst e
    clear hpc
    cases pc with
    | recv =>
      simp only [workerBody] at h
      cases jobs with
      | nil =>
        simp only at h
        split at h
        · cases h
        · rename_i u pc' hu
          split at hu
          · cases hu
            simp only [hset] at h
            cases h
            clear hset hl
            constructor <;>
        simp [sumW_append, sumW_cons, sumW_nil, heldCnt, foundCnt, holdsMutex, live, leftLoop,
          List.count_cons, jobsCap, hitsFrom_append] at * <;>
        (try omega) <;> (try assumption) <;> (try tauto) <;>
        (try (split_ifs at * <;> omega)) <;>
        (try (intro hpw; have := h9 hpw; omega))
          · cases hu
      | cons p rest =>
        simp only [hset] at h
        cases h
        clear hset hl
        constructor <;>
        simp [sumW_append, sumW_cons, sumW_nil, heldCnt, foundCnt, holdsMutex, live, leftLoop,
          List.count_cons, jobsCap, hitsFrom_append] at * <;>
        (try omega) <;> (try assumption) <;> (try tauto) <;>
        (try (split_ifs at * <;> omega)) <;>
        (try (intro hpw; have := h9 hpw; omega))
    | scan p =>
      simp only [workerBody, hset] at h
      cases h
      clear hset hl
      cases hok : ScanTCPPort c.net probed.length c.host p (2 * Second) <;> constructor <;>
        simp [sumW_append, sumW_cons, sumW_nil, heldCnt, foundCnt, holdsMutex, live, leftLoop,
          List.count_cons, jobsCap, hitsFrom_append, hok] at * <;>
        (try omega) <;> (try assumption) <;> (try tauto) <;>
        (try (split_ifs at * <;> omega)) <;>
        (try (intro hpw; have := h9 hpw; omega))
    | probing p ok =>
      simp only [workerBody] at h
      cases ok
      · simp only [hset, Bool.false_eq_true, if_false] at h
        cases h
        clear hset hl
        constructor <;>
        simp [sumW_append, sumW_cons, sumW_nil, heldCnt, foundCnt, holdsMutex, live, leftLoop,
          List.count_cons, jobsCap, hitsFrom_append] at * <;>
        (try omega) <;> (try assumption) <;> (try tauto) <;>
        (try (split_ifs at * <;> omega)) <;>
        (try (intro hpw; have := h9 hpw; omega))
      · simp only [hset, if_true] at h
        cases h
        clear hset hl
        constructor <;>
        simp [sumW_append, sumW_cons, sumW_nil, heldCnt, foundCnt, holdsMutex, live, leftLoop,
          List.count_cons, jobsCap, hitsFrom_append] at * <;>
        (try omega) <;> (try assumption) <;> (try tauto) <;>
        (try (split_ifs at * <;> omega)) <;>
        (try (intro hpw; have := h9 hpw; omega))
    | lock p =>
      simp only [workerBody] at h
      cases mutex
      · simp only [hset, Bool.false_eq_true, if_false] at h
        cases h
        clear hset hl
        constructor <;>
        simp [sumW_append, sumW_cons, sumW_nil, heldCnt, foundCnt, holdsMutex, live, leftLoop,
          List.count_cons, jobsCap, hitsFrom_append] at * <;>
        (try omega) <;> (try assumption) <;> (try tauto) <;>
        (try (split_ifs at * <;> omega)) <;>
        (try (intro hpw; have := h9 hpw; omega))
      · simp only [if_true] at h
        cases h
    | append p =>
      simp only [workerBody, hset] at h
      cases h
      clear hset hl
      have hm : pastWait main = false := by
        cases hpw : pastWait main
        · rfl
        · have := h9 hpw
          simp [sumW_append, sumW_cons, live] at h3
          omega
      have hr : ResultOK (openPorts ++ [p]) main := by
        cases main <;> simp [ResultOK, pastWait] at hm ⊢
      constructor <;>
        simp [sumW_append, sumW_cons, sumW_nil, heldCnt, foundCnt, holdsMutex, live, leftLoop,
          List.count_cons, jobsCap, hitsFrom_append] at * <;>
        (try omega) <;> (try assumption) <;> (try tauto) <;>
        (try (split_ifs at * <;> omega)) <;>
        (try (intro hpw; have := h9 hpw; omega))
    | unlock =>
      simp only [workerBody, hset] at h
      cases h
      clear hset hl
      constructor <;>
        simp [sumW_append, sumW_cons, sumW_nil, heldCnt, foundCnt, holdsMutex, live, leftLoop,
          List.count_cons, jobsCap, hitsFrom_append] at * <;>
        (try omega) <;> (try assumption) <;> (try tauto) <;>
        (try (split_ifs at * <;> omega)) <;>
        (try (intro hpw; have := h9 hpw; omega))
    | exit =>
      simp only [workerBody, hset] at h
      cases h
      clear hset hl
      constructor <;>
        simp [sumW_append, sumW_cons, sumW_nil, heldCnt, foundCnt, holdsMutex, live, leftLoop,
          List.count_cons, jobsCap, hitsFrom_append] at * <;>
        (try omega) <;> (try assumption) <;> (try tauto) <;>
        (try (split_ifs at * <;> omega)) <;>
        (try (intro hpw; have := h9 hpw; omega))
    | done => simp [workerBody] at h

theorem inv_step (c : Config) (hw : NoWrap c) (q : Int) (s t : State) (e : Event)
    (hi : Inv c q s) (h : step c s e = some t) : Inv c q t := by
  cases e with
  | main => exact inv_mainStep c hw q s t hi h
  | worker i => exact inv_workerStep c q s t i hi h

theorem inv_runFrom (c : Config) (hw : NoWrap c) (q : Int) (sched : List Event) (s t : State)
    (hi : Inv c q s) (h : runFrom c s sched = some t) : Inv c q t := by
  induction sched generalizing s with
  | nil =>
    simp only [runFrom, Option.some.injEq] at h
    exact h ▸ hi
  | cons e es ih =>
    simp only [runFrom] at h
    split at h
    · cases h
    · rename_i u hu
      exact ih u (inv_step c hw q s u e hi hu) h

theorem inv_run (c : Config) (hw : NoWrap c) (q : Int) (sched : List Event) (s : State)
    (h : run c sched = some s) : Inv c q s :=
  inv_runFrom c hw q sched init s (inv_init c q) h

theorem runFrom_append (c : Config) (s : State) (l1 l2 : List Event) :
    runFrom c s (l1 ++ l2) =
      match runFrom c s l1 with
      | none => none
      | some t => runFrom c t l2 := by
  induction l1 generalizing s with
  | nil => simp [runFrom]
  | cons e es ih =>
    simp only [List.cons_append, runFrom]
    cases step c s e with
    | none => rfl
    | some u => exact ih u

/-! ## Termination: every step consumes fuel -/

theorem fuel_mainStep (c : Config) (hw : NoWrap c) (s t : State) (hi : Inv c 0 s)
    (h : mainStep c s = some t) : fuel c t < fuel c s := by
  obtain ⟨main, workers, jobs, closed, wg, mutex, openPorts, probed⟩ := s
  have h8 := hi.position
  simp only at h8
  unfold NoWrap at hw
  cases main with
  | spawn i =>
    simp only [mainStep] at h
    split at h <;> cases h <;>
      simp [fuel, mainFuel, sumW_append, sumW_cons, sumW_nil, workerFuel, PosOK] at * <;> omega
  | send p =>
    simp only [mainStep] at h
    have hp : p ≤ c.endPort → wrapInt64 (p + 1) = p + 1 := by
      intro hle
      simp only [PosOK] at h8
      exact wrapInt64_eq _ (by omega) (by omega)
    split at h
    · rename_i hle
      rw [hp hle] at h
      split at h
      · cases h
      · split at h
        · cases h
          simp [fuel, mainFuel, sumW_append, sumW_cons, sumW_nil, workerFuel, PosOK] at *
          omega
        · cases h
    · cases h
      simp [fuel, mainFuel, sumW_append, sumW_cons, sumW_nil, workerFuel, PosOK] at *
  | close =>
    simp only [mainStep] at h
    split at h <;> cases h
    simp [fuel, mainFuel]
  | wait =>
    simp only [mainStep] at h
    split at h <;> cases h
    simp [fuel, mainFuel]
  | sort =>
    simp only [mainStep] at h
    cases h
    simp [fuel, mainFuel]
  | returned r => simp [mainStep] at h

theorem fuel_workerStep (c : Config) (s t : State) (i : Nat)
    (h : workerStep c s i = some t) : fuel c t < fuel c s := by
  obtain ⟨main, workers, jobs, closed, wg, mutex, openPorts, probed⟩ := s
  simp only [workerStep] at h
  split at h
  · cases h
  · rename_i pc hpc
    obtain ⟨l1, l2, e, hl, hset⟩ := getElem?_split _ _ _ hpc
    subst e
    clear hpc
    cases pc with
    | recv =>
      simp only [workerBody] at h
      cases jobs with
      | nil =>
        simp only at h
        cases closed
        · simp at h
        · simp only [if_true, hset] at h
          cases h
          simp [fuel, sumW_append, sumW_cons, workerFuel]
      | cons p rest =>
        simp only [hset] at h
        cases h
        simp [fuel, sumW_append, sumW_cons, workerFuel]
        omega
    | scan p =>
      simp only [workerBody, hset] at h
      cases h
      simp [fuel, sumW_append, sumW_cons, workerFuel]
    | probing p ok =>
      simp only [workerBody] at h
      cases ok
      · simp only [hset, Bool.false_eq_true, if_false] at h
        cases h
        simp [fuel, sumW_append, sumW_cons, workerFuel]
      · simp only [hset, if_true] at h
        cases h
        simp [fuel, sumW_append, sumW_cons, workerFuel]
    | lock p =>
      simp only [workerBody] at h
      cases mutex
      · simp only [hset, Bool.false_eq_true, if_false] at h
        cases h
        simp [fuel, sumW_append, sumW_cons, workerFuel]
      · simp only [if_true] at h
        cases h
    | append p =>
      simp only [workerBody, hset] at h
      cases h
      simp [fuel, sumW_append, sumW_cons, workerFuel]
    | unlock =>
      simp only [workerBody, hset] at h
      cases h
      simp [fuel, sumW_append, sumW_cons, workerFuel]
    | exit =>
      simp only [workerBody, hset] at h
      cases h
      simp [fuel, sumW_append, sumW_cons, workerFuel]
    | done => simp [workerBody] at h

theorem fuel_step (c : Config) (hw : NoWrap c) (s t : State) (e : Event) (hi : Inv c 0 s)
    (h : step c s e = some t) : fuel c t < fuel c s := by
  cases e with
  | main => exact fuel_mainStep c hw s t hi h
  | worker i => exact fuel_workerStep c s t i h

theorem fuel_runFrom (c : Config) (hw : NoWrap c) (sched : List Event) (s t : State)
    (hi : Inv c 0 s) (h : runFrom c s sched = some t) :
    sched.length + fuel c t ≤ fuel c s := by
  induction sched generalizing s with
  | nil =>
    simp only [runFrom, Option.some.injEq] at h
    subst h
    simp
  | cons e es ih =>
    simp only [runFrom] at h
    split at h
    · cases h
    · rename_i u hu
      have h1 := ih u (inv_step c hw 0 s u e hi hu) h
      have h2 := fuel_step c hw s u e hi hu
      simp only [List.length_cons]
      omega

/-! ## Progress: a goroutine can always move until `ScanPortRange` returns -/

theorem workerStep_of_body (c : Config) (s : State) (w : WorkerPC) (hw : w ∈ s.workers)
    (hb : (workerBody c s w).isSome = true) : ∃ i t, workerStep c s i = some t := by
  obtain ⟨i, hi⟩ := List.mem_iff_getElem?.mp hw
  obtain ⟨⟨t, pc⟩, ht⟩ := Option.isSome_iff_exists.mp hb
  exact ⟨i, { t with workers := t.workers.set i pc }, by simp only [workerStep, hi, ht]⟩

theorem worker_can_move (c : Config) (s : State) (hm : sumW holdsMutex s.workers =
    if s.mutex then 1 else 0) (hj : s.jobs ≠ [] ∨ s.closed = true)
    (hl : 0 < sumW live s.workers) : ∃ i t, workerStep c s i = some t := by
  obtain ⟨w, hw, hlw⟩ := (sumW_pos_iff _ _).mp hl
  cases w with
  | recv =>
    apply workerStep_of_body c s _ hw
    simp only [workerBody]
    cases hjobs : s.jobs with
    | nil =>
      rcases hj with hj | hj
      · exact absurd hjobs hj
      · simp [hj]
    | cons p rest => simp
  | scan p => exact workerStep_of_body c s _ hw (by simp [workerBody])
  | probing p ok => exact workerStep_of_body c s _ hw (by cases ok <;> simp [workerBody])
  | lock p =>
    cases hmx : s.mutex with
    | false => exact workerStep_of_body c s _ hw (by simp [workerBody, hmx])
    | true =>
      have hpos : 0 < sumW holdsMutex s.workers := by rw [hm, hmx]; simp
      obtain ⟨v, hv, hlv⟩ := (sumW_pos_iff _ _).mp hpos
      cases v <;> simp [holdsMutex] at hlv
      · exact workerStep_of_body c s _ hv (by simp [workerBody])
      · exact workerStep_of_body c s _ hv (by simp [workerBody])
  | append p => exact workerStep_of_body c s _ hw (by simp [workerBody])
  | unlock => exact workerStep_of_body c s _ hw (by simp [workerBody])
  | exit => exact workerStep_of_body c s _ hw (by simp [workerBody])
  | done => simp [live] at hlw

theorem progress (c : Config) (hn : 1 ≤ c.numWorkers) (s : State) (hi : Inv c 0 s)
    (hr : isReturned s.main = false) : ∃ e t, step c s e = some t := by
  obtain ⟨main, workers, jobs, closed, wg, mutex, openPorts, probed⟩ := s
  obtain ⟨h1, h2, h3, h4, h5, h6, h7, h8, h9, h10, h11⟩ := hi
  simp only at h1 h2 h3 h4 h5 h6 h7 h8 h9 h10 h11 hr
  cases main with
  | spawn i =>
    refine ⟨Event.main, ?_⟩
    simp only [step, mainStep]
    split <;> exact ⟨_, rfl⟩
  | send p =>
    by_cases hle : p ≤ c.endPort
    · by_cases hfull : jobs.length < jobsCap
      · refine ⟨Event.main, ?_⟩
        simp [step, mainStep, hle, hfull, h6, pastClose]
      · have hne : jobs ≠ [] := by
          intro h0
          simp [h0, jobsCap] at hfull
        have hlive : 0 < sumW live workers := by
          cases workers with
          | nil =>
            simp [startedCnt] at h5
            omega
          | cons w ws =>
            cases w <;> simp [sumW_cons, live, leftLoop, h6, pastClose] at h7 ⊢
        obtain ⟨k, t, hk⟩ := worker_can_move c ⟨_, workers, jobs, closed, wg, mutex, openPorts, probed⟩
          h4 (Or.inl hne) hlive
        exact ⟨Event.worker k, t, hk⟩
    · refine ⟨Event.main, ?_⟩
      simp [step, mainStep, hle]
  | close =>
    refine ⟨Event.main, ?_⟩
    simp [step, mainStep, h6, pastClose]
  | wait =>
    by_cases hwg : wg = 0
    · refine ⟨Event.main, ?_⟩
      simp [step, mainStep, hwg]
    · have hlive : 0 < sumW live workers := by omega
      obtain ⟨k, t, hk⟩ := worker_can_move c ⟨_, workers, jobs, closed, wg, mutex, openPorts, probed⟩
        h4 (Or.inr (by simp [h6, pastClose])) hlive
      exact ⟨Event.worker k, t, hk⟩
  | sort =>
    refine ⟨Event.main, ?_⟩
    simp [step, mainStep]
  | returned r => simp [isReturned] at hr

theorem can_return (c : Config) (hw : NoWrap c) (hn : 1 ≤ c.numWorkers) (n : Nat) :
    ∀ s : State, Inv c 0 s → fuel c s ≤ n →
      ∃ more t r, runFrom c s more = some t ∧ t.main = .returned r := by
  induction n with
  | zero =>
    intro s hi hf
    cases hr : isReturned s.main with
    | true =>
      cases hm : s.main <;> simp [hm, isReturned] at hr
      exact ⟨[], s, _, rfl, hm⟩
    | false =>
      obtain ⟨e, t, ht⟩ := progress c hn s hi hr
      have := fuel_step c hw s t e hi ht
      omega
  | succ n ih =>
    intro s hi hf
    cases hr : isReturned s.main with
    | true =>
      cases hm : s.main <;> simp [hm, isReturned] at hr
      exact ⟨[], s, _, rfl, hm⟩
    | false =>
      obtain ⟨e, t, ht⟩ := progress c hn s hi hr
      have hlt := fuel_step c hw s t e hi ht
      obtain ⟨more, u, r, hu, hur⟩ := ih t (inv_step c hw 0 s t e hi ht) (by omega)
      exact ⟨e :: more, u, r, by simp only [runFrom, ht, hu], hur⟩

theorem alwaysReturns_of_inv (c : Config) (hw : NoWrap c) (hn : 1 ≤ c.numWorkers)
    (P : State → List Int → Prop)
    (hP : ∀ s r, (∀ q, Inv c q s) → s.main = .returned r → P s r) :
    AlwaysReturns c (fuel c init) P := by
  intro sched s hs
  have hi : ∀ q, Inv c q s := fun q => inv_run c hw q sched s hs
  refine ⟨?_, ?_, fun r hr => hP s r hi hr⟩
  · have := fuel_runFrom c hw sched init s (inv_init c 0) hs
    omega
  · obtain ⟨more, t, r, ht, hr⟩ := can_return c hw hn (fuel c s) s (hi 0) (le_refl _)
    refine ⟨more, t, r, ?_, hr⟩
    unfold run at hs ⊢
    rw [runFrom_append, hs]
    exact ht

/-! ## What holds when `ScanPortRange` has returned -/

theorem sumW_eq_zero_iff (f : WorkerPC → Nat) (ws : List WorkerPC) :
    sumW f ws = 0 ↔ ∀ w ∈ ws, f w = 0 := by
  have h := sumW_pos_iff f ws
  constructor
  · intro h0 w hw
    by_contra hne
    have : 0 < sumW f ws := h.mpr ⟨w, hw, by omega⟩
    omega
  · intro hall
    by_contra hne
    obtain ⟨w, hw, hpos⟩ := h.mp (by omega)
    have := hall w hw
    omega

theorem all_done_of_returned (c : Config) (s : State) (r : List Int) (hi : Inv c 0 s)
    (hr : s.main = .returned r) : ∀ w ∈ s.workers, w = WorkerPC.done := by
  have hwg : s.wg = 0 := hi.joined (by simp [hr, pastWait])
  have h0 : sumW live s.workers = 0 := by
    have := hi.wgLive
    omega
  intro w hw
  have := (sumW_eq_zero_iff _ _).mp h0 w hw
  cases w <;> simp [live] at this
  rfl

theorem sumW_of_all_done (f : WorkerPC → Nat) (hf : f WorkerPC.done = 0) (ws : List WorkerPC)
    (h : ∀ w ∈ ws, w = WorkerPC.done) : sumW f ws = 0 := by
  rw [sumW_eq_zero_iff]
  intro w hw
  rw [h w hw]
  exact hf

theorem jobs_empty_of_returned (c : Config) (hn : 1 ≤ c.numWorkers) (s : State) (r : List Int)
    (hi : Inv c 0 s) (hr : s.main = .returned r) : s.jobs = [] := by
  have hd := all_done_of_returned c s r hi hr
  have hlen := hi.started
  rw [hr] at hlen
  simp only [startedCnt] at hlen
  apply (hi.drained _).2
  cases hws : s.workers with
  | nil =>
    rw [hws] at hlen
    simp at hlen
    omega
  | cons w ws =>
    have : w = WorkerPC.done := hd w (by simp [hws])
    subst this
    simp [sumW_cons, leftLoop]

theorem count_interval (a b q : Int) :
    (interval a b).count q = if a ≤ q ∧ q ≤ b then 1 else 0 := by
  have hnd : (interval a b).Nodup := by
    unfold interval
    apply List.Nodup.map _ (List.nodup_range _)
    intro x y hxy
    simp only at hxy
    omega
  have hmem : q ∈ interval a b ↔ a ≤ q ∧ q ≤ b := by
    simp only [interval, List.mem_map, List.mem_range]
    constructor
    · rintro ⟨k, hk, rfl⟩
      omega
    · intro h
      refine ⟨(q - a).toNat, ?_, ?_⟩
      all_goals omega
  split
  · rename_i h
    exact List.count_eq_one_of_mem hnd (hmem.mpr h)
  · rename_i h
    exact List.count_eq_zero_of_not_mem (fun hm => h (hmem.mp hm))

theorem probed_perm_of_returned (c : Config) (hn : 1 ≤ c.numWorkers) (s : State) (r : List Int)
    (hi : ∀ q, Inv c q s) (hr : s.main = .returned r) :
    s.probed.Perm (interval c.startPort c.endPort) := by
  rw [List.perm_iff_count]
  intro q
  have h1 := (hi q).jobsCons
  have hj := jobs_empty_of_returned c hn s r (hi 0) hr
  have hd := all_done_of_returned c s r (hi 0) hr
  rw [sumW_of_all_done _ (by simp [heldCnt]) _ hd, hj, hr] at h1
  simp only [List.count_nil, sentCnt, Nat.add_zero] at h1
  rw [h1, count_interval]

theorem sentCnt_le_one (c : Config) (q : Int) (m : MainPC) : sentCnt c q m ≤ 1 := by
  cases m <;> simp only [sentCnt] <;> (try split) <;> omega

theorem sorted_interval (a b : Int) : (interval a b).Sorted (· < ·) := by
  unfold interval
  rw [List.Sorted, List.pairwise_map]
  apply List.Pairwise.imp _ (List.pairwise_lt_range _)
  intro x y hxy
  omega

theorem sortInts_perm (xs : List Int) : (sortInts xs).Perm xs :=
  List.perm_insertionSort _ xs

theorem sortInts_sorted (xs : List Int) : (sortInts xs).Sorted (· ≤ ·) :=
  List.sorted_insertionSort _ xs

theorem openPorts_count_of_returned (c : Config) (s : State) (r : List Int)
    (hi : ∀ q, Inv c q s) (hr : s.main = .returned r) (q : Int) :
    s.openPorts.count q = (hitsFrom c 0 s.probed).count q := by
  have h2 := (hi q).hitsCons
  have hd := all_done_of_returned c s r (hi 0) hr
  rw [sumW_of_all_done _ (by simp [foundCnt]) _ hd] at h2
  omega

theorem result_eq_sort (c : Config) (s : State) (r : List Int) (hi : Inv c 0 s)
    (hr : s.main = .returned r) : r = sortInts s.openPorts := by
  have := hi.result
  rw [hr] at this
  exact this

theorem result_strictlyAscending (c : Config) (s : State) (r : List Int)
    (hi : ∀ q, Inv c q s) (hr : s.main = .returned r) : StrictlyAscending r := by
  have hnd : s.openPorts.Nodup := by
    rw [List.nodup_iff_count_le_one]
    intro q
    rw [openPorts_count_of_returned c s r hi hr q]
    have h1 := (hitsFrom_sublist c 0 s.probed).count_le q
    have h2 := (hi q).jobsCons
    have h3 := sentCnt_le_one c q s.main
    omega
  rw [result_eq_sort c s r (hi 0) hr]
  have hs := (sortInts_sorted s.openPorts).lt_of_le ((sortInts_perm s.openPorts).nodup_iff.mpr hnd)
  exact List.Pairwise.chain' hs

theorem hitsFrom_eq_filter (c : Config) (f : Int → Bool)
    (hdet : ∀ k p, ScanTCPPort c.net k c.host p (2 * Second) = f p) (k : Nat) (l : List Int) :
    hitsFrom c k l = l.filter f := by
  induction l generalizing k with
  | nil => rfl
  | cons a l ih =>
    simp only [hitsFrom, hdet, ih, List.filter_cons]

theorem result_eq_filter (c : Config) (hn : 1 ≤ c.numWorkers) (f : Int → Bool)
    (hdet : ∀ k p, ScanTCPPort c.net k c.host p (2 * Second) = f p)
    (s : State) (r : List Int) (hi : ∀ q, Inv c q s) (hr : s.main = .returned r) :
    r = (interval c.startPort c.endPort).filter f := by
  have hperm : r.Perm ((interval c.startPort c.endPort).filter f) := by
    rw [result_eq_sort c s r (hi 0) hr]
    refine (sortInts_perm _).trans ?_
    have hp : s.openPorts.Perm (s.probed.filter f) := by
      rw [List.perm_iff_count]
      intro q
      rw [openPorts_count_of_returned c s r hi hr q, hitsFrom_eq_filter c f hdet]
    exact hp.trans ((probed_perm_of_returned c hn s r hi hr).filter f)
  have h1 : r.Sorted (· ≤ ·) := by
    rw [result_eq_sort c s r (hi 0) hr]
    exact sortInts_sorted _
  have h2 : ((interval c.startPort c.endPort).filter f).Sorted (· ≤ ·) :=
    ((sorted_interval _ _).le_of_lt).filter f
  exact List.eq_of_perm_of_sorted hperm h1 h2

theorem noWrap_of_ports (c : Config) (h1 : 1 ≤ c.startPort) (h3 : c.endPort ≤ 65535) :
    NoWrap c := by
  unfold NoWrap
  omega

/-! ## The number of workers started, with no assumption on the arguments -/

theorem spawnInv_init (c : Config) : SpawnInv c init := by
  simp [SpawnInv, init, startedCnt, SpawnOK]

theorem spawnInv_step (c : Config) (s t : State) (e : Event) (hi : SpawnInv c s)
    (h : step c s e = some t) : SpawnInv c t := by
  obtain ⟨main, workers, jobs, closed, wg, mutex, openPorts, probed⟩ := s
  obtain ⟨h1, h2⟩ := hi
  simp only at h1 h2
  cases e with
  | main =>
    simp only [step] at h
    cases main with
    | spawn i =>
      simp only [mainStep] at h
      split at h <;> cases h <;> simp [SpawnInv, startedCnt, SpawnOK] at * <;> omega
    | send p =>
      simp only [mainStep] at h
      split at h
      · split at h
        · cases h
        · split at h
          · cases h
            simpa [SpawnInv, startedCnt, SpawnOK] using h1
          · cases h
      · cases h
        simpa [SpawnInv, startedCnt, SpawnOK] using h1
    | close =>
      simp only [mainStep] at h
      split at h <;> cases h
      simpa [SpawnInv, startedCnt, SpawnOK] using h1
    | wait =>
      simp only [mainStep] at h
      split at h <;> cases h
      simpa [SpawnInv, startedCnt, SpawnOK] using h1
    | sort =>
      simp only [mainStep] at h
      cases h
      simpa [SpawnInv, startedCnt, SpawnOK] using h1
    | returned r => simp [mainStep] at h
  | worker i =>
    simp only [step, workerStep] at h
    split at h
    · cases h
    · rename_i pc hpc
      split at h
      · cases h
      · rename_i u pc' hu
        cases h
        have hm : u.main = main ∧ u.workers = workers := by
          cases pc <;> simp only [workerBody] at hu
          · split at hu
            · cases hu; exact ⟨rfl, rfl⟩
            · split at hu <;> cases hu
              exact ⟨rfl, rfl⟩
          · cases hu; exact ⟨rfl, rfl⟩
          · split at hu <;> cases hu <;> exact ⟨rfl, rfl⟩
          · split at hu <;> cases hu
            exact ⟨rfl, rfl⟩
          · cases hu; exact ⟨rfl, rfl⟩
          · cases hu; exact ⟨rfl, rfl⟩
          · cases hu; exact ⟨rfl, rfl⟩
          · cases hu
        simp only [SpawnInv, hm.1, hm.2, List.length_set]
        exact ⟨h1, h2⟩

theorem spawnInv_runFrom (c : Config) (sched : List Event) (s t : State)
    (hi : SpawnInv c s) (h : runFrom c s sched = some t) : SpawnInv c t := by
  induction sched generalizing s with
  | nil =>
    simp only [runFrom, Option.some.injEq] at h
    exact h ▸ hi
  | cons e es ih =>
    simp only [runFrom] at h
    split at h
    · cases h
    · rename_i u hu
      exact ih u (spawnInv_step c s u e hi hu) h

theorem inFlight_le_one (w : WorkerPC) : inFlight w ≤ 1 := by
  cases w <;> simp [inFlight]

theorem started_le (c : Config) (s : State) (hi : SpawnInv c s) :
    s.workers.length ≤ c.numWorkers.toNat := by
  obtain ⟨h1, h2⟩ := hi
  rw [h1]
  cases hm : s.main <;> simp only [startedCnt, le_refl]
  rw [hm] at h2
  simp only [SpawnOK] at h2
  omega

theorem started_eq (c : Config) (s : State) (hi : SpawnInv c s)
    (hp : pastSpawn s.main = true) : s.workers.length = c.numWorkers.toNat := by
  obtain ⟨h1, h2⟩ := hi
  rw [h1]
  cases hm : s.main <;> simp only [startedCnt]
  simp [hm, pastSpawn] at hp

theorem mem_interval (a b q : Int) : q ∈ interval a b ↔ a ≤ q ∧ q ≤ b := by
  simp only [interval, List.mem_map, List.mem_range]
  constructor
  · rintro ⟨k, hk, rfl⟩
    omega
  · intro h
    exact ⟨(q - a).toNat, by omega, by omega⟩

theorem interval_self (a : Int) : interval a a = [a] := by
  have : (a + 1 - a).toNat = 1 := by omega
  simp [interval, this, List.range_succ]

theorem eq_of_strict_of_mem_iff (l1 l2 : List Int) (h1 : l1.Sorted (· < ·))
    (h2 : l2.Sorted (· < ·)) (h : ∀ a, a ∈ l1 ↔ a ∈ l2) : l1 = l2 := by
  have hp : l1.Perm l2 := (List.perm_ext_iff_of_nodup h1.nodup h2.nodup).mpr h
  exact List.eq_of_perm_of_sorted hp h1.le_of_lt h2.le_of_lt

theorem alwaysReturns_mono (c : Config) (n : Nat) (P Q : State → List Int → Prop)
    (hPQ : ∀ s r, P s r → Q s r) (h : AlwaysReturns c n P) : AlwaysReturns c n Q := by
  intro sched s hs
  obtain ⟨h1, h2, h3⟩ := h sched s hs
  exact ⟨h1, h2, fun r hr => hPQ s r (h3 r hr)⟩

set_option maxRecDepth 100000 in
theorem scenario_open_a : ∀ p ∈ interval 1 250,
    (ScanTCPPort netSshHttps 0 "example.com" p (2 * Second) = true ↔ p = 22 ∨ p = 443) := by
  decide

set_option maxRecDepth 100000 in
theorem scenario_open_b : ∀ p ∈ interval 251 500,
    (ScanTCPPort netSshHttps 0 "example.com" p (2 * Second) = true ↔ p = 22 ∨ p = 443) := by
  decide

set_option maxRecDepth 100000 in
theorem scenario_open_c : ∀ p ∈ interval 501 750,
    (ScanTCPPort netSshHttps 0 "example.com" p (2 * Second) = true ↔ p = 22 ∨ p = 443) := by
  decide

set_option maxRecDepth 100000 in
theorem scenario_open_d : ∀ p ∈ interval 751 1000,
    (ScanTCPPort netSshHttps 0 "example.com" p (2 * Second) = true ↔ p = 22 ∨ p = 443) := by
  decide

theorem scenario_open (p : Int) (h1 : 1 ≤ p) (h2 : p ≤ 1000) :
    (ScanTCPPort netSshHttps 0 "example.com" p (2 * Second) = true ↔ p = 22 ∨ p = 443) := by
  by_cases ha : p ≤ 250
  · exact scenario_open_a p ((mem_interval _ _ _).mpr ⟨h1, ha⟩)
  by_cases hb : p ≤ 500
  · exact scenario_open_b p ((mem_interval _ _ _).mpr ⟨by omega, hb⟩)
  by_cases hc : p ≤ 750
  · exact scenario_open_c p ((mem_interval _ _ _).mpr ⟨by omega, hc⟩)
  · exact scenario_open_d p ((mem_interval _ _ _).mpr ⟨by omega, h2⟩)

/-! ## The claims about `ScanPortRange` -/

/-- C1: for every host and every range `1 ≤ startPort ≤ endPort ≤ 65535`, with
at least one worker configured, every execution of `ScanPortRange` returns, and
when it has returned the log of the calls of `ScanTCPPort` is a permutation of
`startPort, startPort+1, ..., endPort`: every port of the interval was probed
exactly once and no port outside it was probed. -/
theorem ScanPortRange_probes_each_port_once (c : Config)
    (h1 : 1 ≤ c.startPort) (h2 : c.startPort ≤ c.endPort) (h3 : c.endPort ≤ 65535)
    (hn : 1 ≤ c.numWorkers) :
    AlwaysReturns c (fuel c init) (fun s _ =>
      s.probed.Perm (interval c.startPort c.endPort) ∧
      ∀ p, s.probed.count p = if c.startPort ≤ p ∧ p ≤ c.endPort then 1 else 0) := by
  apply alwaysReturns_of_inv c (noWrap_of_ports c h1 h3) hn
  intro s r hi hr
  have hp := probed_perm_of_returned c hn s r hi hr
  refine ⟨hp, fun p => ?_⟩
  rw [hp.count_eq, count_interval]

/-- Witness of C1: the scan of ports 1 to 1000 with 10 workers, and the
execution `smallSched` of the scan of ports 7 and 8, whose log is `[7, 8]`. -/
theorem ScanPortRange_probes_each_port_once_witness :
    AlwaysReturns scenarioConfig (fuel scenarioConfig init) (fun s _ =>
      s.probed.Perm (interval 1 1000) ∧
      ∀ p, s.probed.count p = if (1 : Int) ≤ p ∧ p ≤ 1000 then 1 else 0) ∧
    run smallConfig smallSched = some smallFinal ∧
    smallSched.length ≤ fuel smallConfig init ∧
    [(7 : Int), 8].Perm (interval 7 8) :=
  ⟨ScanPortRange_probes_each_port_once scenarioConfig (by decide) (by decide) (by decide)
    (by decide), by decide,
    (ScanPortRange_probes_each_port_once smallConfig (by decide) (by decide) (by decide)
      (by decide) smallSched smallFinal (by decide)).1,
    ((ScanPortRange_probes_each_port_once smallConfig (by decide) (by decide) (by decide)
      (by decide) smallSched smallFinal (by decide)).2.2 [7, 8] rfl).1⟩

/-- C2: for every host, every range of 64-bit integers whose `endPort` is not
the largest one (in particular every range of ports), every behaviour of the
probe and every interleaving of the workers, the slice `ScanPortRange` returns
is strictly ascending, hence free of duplicates; and with at least one worker
every execution does return. -/
theorem ScanPortRange_result_strictly_ascending (c : Config) (hw : NoWrap c) :
    (∀ sched s r, run c sched = some s → s.main = .returned r →
      StrictlyAscending r ∧ r.Nodup) ∧
    (1 ≤ c.numWorkers →
      AlwaysReturns c (fuel c init) (fun _ r => StrictlyAscending r ∧ r.Nodup)) := by
  have key : ∀ s r, (∀ q, Inv c q s) → s.main = .returned r →
      StrictlyAscending r ∧ r.Nodup := by
    intro s r hi hr
    have hs := result_strictlyAscending c s r hi hr
    refine ⟨hs, ?_⟩
    have hp : r.Pairwise (· < ·) := List.chain'_iff_pairwise.mp hs
    exact hp.imp (fun h => ne_of_lt h)
  exact ⟨fun sched s r hs hr => key s r (fun q => inv_run c hw q sched s hs) hr,
    fun hn => alwaysReturns_of_inv c hw hn _ key⟩

/-- Witness of C2: in `smallConfig` the workers append 8 before 7 and the
slice returned is `[7, 8]`. -/
theorem ScanPortRange_result_strictly_ascending_witness :
    NoWrap smallConfig ∧ run smallConfig smallSched = some smallFinal ∧
      smallFinal.openPorts = [8, 7] ∧ StrictlyAscending [7, 8] ∧ [(7 : Int), 8].Nodup :=
  ⟨⟨by decide, by decide⟩, by decide, rfl,
    (ScanPortRange_result_strictly_ascending smallConfig ⟨by decide, by decide⟩).1
      smallSched smallFinal [7, 8] (by decide) rfl⟩

/-- C3: with a deterministic probe (`f` is the fixed set of open ports), for
every range `1 ≤ startPort ≤ endPort ≤ 65535` and at least one worker, every
execution of `ScanPortRange` returns, and a port is in the result exactly when
it lies in the range and the probe reports it open; the result is the
ascending list of the open ports of the range. For a single port `p` it is
`[p]` when `p` is open and empty otherwise, and with only 22 and 443 open in
the range 1-1000 it is `[22, 443]`. -/
theorem ScanPortRange_result_iff_open (c : Config) (f : Int → Bool)
    (hdet : ∀ k p, ScanTCPPort c.net k c.host p (2 * Second) = f p)
    (h1 : 1 ≤ c.startPort) (h2 : c.startPort ≤ c.endPort) (h3 : c.endPort ≤ 65535)
    (hn : 1 ≤ c.numWorkers) :
    AlwaysReturns c (fuel c init) (fun _ r =>
      (∀ p, p ∈ r ↔ (c.startPort ≤ p ∧ p ≤ c.endPort ∧ f p = true)) ∧
      r = (interval c.startPort c.endPort).filter f ∧
      (c.startPort = c.endPort → r = if f c.startPort then [c.startPort] else []) ∧
      (c.startPort = 1 → c.endPort = 1000 →
        (∀ p, 1 ≤ p → p ≤ 1000 → (f p = true ↔ p = 22 ∨ p = 443)) → r = [22, 443])) := by
  apply alwaysReturns_of_inv c (noWrap_of_ports c h1 h3) hn
  intro s r hi hr
  have hr' := result_eq_filter c hn f hdet s r hi hr
  have hmem : ∀ p, p ∈ r ↔ (c.startPort ≤ p ∧ p ≤ c.endPort ∧ f p = true) := by
    intro p
    rw [hr', List.mem_filter, mem_interval]
    tauto
  refine ⟨hmem, hr', ?_, ?_⟩
  · intro he
    rw [hr', ← he, interval_self]
    cases hf : f c.startPort <;> simp [hf]
  · intro hs he hf
    have hsorted : r.Sorted (· < ·) := by
      rw [hr']
      exact (sorted_interval _ _).filter f
    apply eq_of_strict_of_mem_iff r [22, 443] hsorted (by decide)
    intro a
    rw [hmem a, hs, he]
    constructor
    · rintro ⟨ha1, ha2, ha3⟩
      have := (hf a ha1 ha2).mp ha3
      simpa using this
    · intro ha
      have ha' : a = 22 ∨ a = 443 := by simpa using ha
      have hb : 1 ≤ a ∧ a ≤ 1000 := by omega
      exact ⟨hb.1, hb.2, (hf a hb.1 hb.2).mpr ha'⟩

/-- Witness of C3: against the target with only 22 and 443 open, the scan of
1-1000 with 10 workers returns exactly `[22, 443]`. -/
theorem ScanPortRange_result_iff_open_witness :
    AlwaysReturns scenarioConfig (fuel scenarioConfig init) (fun _ r => r = [22, 443]) :=
  alwaysReturns_mono scenarioConfig _ _ _
    (fun _ _ h => h.2.2.2 rfl rfl scenario_open)
    (ScanPortRange_result_iff_open scenarioConfig
      (fun p => ScanTCPPort netSshHttps 0 "example.com" p (2 * Second))
      (fun _ _ => rfl) (by decide) (by decide) (by decide) (by decide))

/-- C7: for every range of 64-bit integers whose `endPort` is not the
largest one (in particular every range of ports, also one with more ports
than the 100 slots of the channel) and every worker count of at least 1: in
every reachable state in which `ScanPortRange` has not returned some goroutine
can take a step (no deadlock), every execution is finite and can be continued
until the return, and at the return the channel is closed and empty, every
worker has terminated and the WaitGroup is at zero. -/
theorem ScanPortRange_no_deadlock (c : Config) (hw : NoWrap c) (hn : 1 ≤ c.numWorkers) :
    (∀ sched s, run c sched = some s → isReturned s.main = false →
      ∃ e t, step c s e = some t) ∧
    AlwaysReturns c (fuel c init) (fun s _ =>
      s.closed = true ∧ s.jobs = [] ∧ (∀ w ∈ s.workers, w = WorkerPC.done) ∧
      (s.workers.length : Int) = c.numWorkers ∧ s.wg = 0) := by
  refine ⟨fun sched s hs hr => progress c hn s (inv_run c hw 0 sched s hs) hr, ?_⟩
  apply alwaysReturns_of_inv c hw hn
  intro s r hi hr
  have h0 := hi 0
  refine ⟨?_, jobs_empty_of_returned c hn s r h0 hr, all_done_of_returned c s r h0 hr, ?_, ?_⟩
  · rw [h0.closedIff, hr]
    rfl
  · have := h0.started
    rw [hr] at this
    simp only [startedCnt] at this
    omega
  · exact h0.joined (by simp [hr, pastWait])

/-- Witness of C7: 1000 ports through the 100 slots of the channel, 10 workers. -/
theorem ScanPortRange_no_deadlock_witness :
    NoWrap scenarioConfig ∧ (1 : Int) ≤ scenarioConfig.numWorkers ∧
    jobsCap < (interval scenarioConfig.startPort scenarioConfig.endPort).length ∧
    ((∀ sched s, run scenarioConfig sched = some s → isReturned s.main = false →
      ∃ e t, step scenarioConfig s e = some t) ∧
    AlwaysReturns scenarioConfig (fuel scenarioConfig init) (fun s _ =>
      s.closed = true ∧ s.jobs = [] ∧ (∀ w ∈ s.workers, w = WorkerPC.done) ∧
      (s.workers.length : Int) = scenarioConfig.numWorkers ∧ s.wg = 0)) :=
  ⟨⟨by decide, by decide⟩, by decide, by simp [interval, scenarioConfig, jobsCap],
    ScanPortRange_no_deadlock scenarioConfig ⟨by decide, by decide⟩ (by decide)⟩

/-- C8: in every reachable state of every call of `ScanPortRange` the number
of workers inside `ScanTCPPort` is at most the number of workers started,
which is at most `numWorkers`; a worker is inside at most one probe; and once
the first loop is over exactly `numWorkers` workers have been started. -/
theorem ScanPortRange_probes_in_flight_bounded (c : Config) (sched : List Event) (s : State)
    (h : run c sched = some s) :
    sumW inFlight s.workers ≤ s.workers.length ∧
    s.workers.length ≤ c.numWorkers.toNat ∧
    (∀ w, inFlight w ≤ 1) ∧
    (pastSpawn s.main = true → s.workers.length = c.numWorkers.toNat) := by
  have hi := spawnInv_runFrom c sched init s (spawnInv_init c) h
  exact ⟨sumW_le_length _ inFlight_le_one _, started_le c s hi, inFlight_le_one,
    started_eq c s hi⟩

/-- Witness of C8: the final state of `smallSched`, two workers started. -/
theorem ScanPortRange_probes_in_flight_bounded_witness :
    run smallConfig smallSched = some smallFinal ∧
    sumW inFlight smallFinal.workers ≤ smallFinal.workers.length ∧
    smallFinal.workers.length ≤ smallConfig.numWorkers.toNat ∧
    (∀ w, inFlight w ≤ 1) ∧
    (pastSpawn smallFinal.main = true →
      smallFinal.workers.length = smallConfig.numWorkers.toNat) :=
  ⟨by decide, ScanPortRange_probes_in_flight_bounded smallConfig smallSched smallFinal
    (by decide)⟩

/-! ## The claims about the configuration -/

theorem setConcurrentScanners_pos (n w : Int) (hn : 1 ≤ n) :
    1 ≤ SetConcurrentScanners n w := by
  unfold SetConcurrentScanners
  split <;> omega

theorem foldl_setConcurrentScanners_pos (calls : List Int) (n : Int) (hn : 1 ≤ n) :
    1 ≤ calls.foldl SetConcurrentScanners n := by
  induction calls generalizing n with
  | nil => exact hn
  | cons w ws ih => exact ih _ (setConcurrentScanners_pos n w hn)

/-- C4: `SetConcurrentScanners(n)` leaves `numWorkers` unchanged for every
`n ≤ 0` and sets it to exactly `n` for every `n > 0`. -/
theorem SetConcurrentScanners_spec (numWorkers workers : Int) :
    (workers ≤ 0 → SetConcurrentScanners numWorkers workers = numWorkers) ∧
    (workers > 0 → SetConcurrentScanners numWorkers workers = workers) := by
  unfold SetConcurrentScanners
  constructor
  · intro h
    rw [if_neg (by omega)]
  · intro h
    rw [if_pos h]

/-- Witness of C4: from the default 20, the arguments 0 and -3 keep 20 and
the argument 50 gives 50. -/
theorem SetConcurrentScanners_spec_witness :
    SetConcurrentScanners 20 0 = 20 ∧ SetConcurrentScanners 20 (-3) = 20 ∧
    SetConcurrentScanners 20 50 = 50 :=
  ⟨(SetConcurrentScanners_spec 20 0).1 (by decide),
    (SetConcurrentScanners_spec 20 (-3)).1 (by decide),
    (SetConcurrentScanners_spec 20 50).2 (by decide)⟩

/-- C10: starting from the initial value 20, after every finite sequence of
calls of `SetConcurrentScanners` with arbitrary arguments `numWorkers ≥ 1`;
and a call of `ScanPortRange` that reads such a value has started at least
one worker, exactly that many, once its first loop is over. -/
theorem numWorkers_always_positive (calls : List Int) :
    1 ≤ calls.foldl SetConcurrentScanners defaultNumWorkers ∧
    (∀ c sched s, c.numWorkers = calls.foldl SetConcurrentScanners defaultNumWorkers →
      run c sched = some s → pastSpawn s.main = true →
      1 ≤ s.workers.length ∧ (s.workers.length : Int) = c.numWorkers) := by
  have hpos := foldl_setConcurrentScanners_pos calls defaultNumWorkers (by decide)
  refine ⟨hpos, ?_⟩
  intro c sched s hc hs hp
  have hi := spawnInv_runFrom c sched init s (spawnInv_init c) hs
  have := started_eq c s hi hp
  omega

/-- Witness of C10: the calls 0, -5, 2, 0 leave `numWorkers = 2`, and the
scan `smallSched` with 2 workers has started 2 workers. -/
theorem numWorkers_always_positive_witness :
    [0, -5, 2, 0].foldl SetConcurrentScanners defaultNumWorkers = 2 ∧
    1 ≤ smallFinal.workers.length ∧
    (smallFinal.workers.length : Int) = smallConfig.numWorkers :=
  ⟨by decide, (numWorkers_always_positive [0, -5, 2, 0]).2 smallConfig smallSched smallFinal
    (by decide) (by decide) rfl⟩

/-! ## The claims about `IsHostAlive` -/

/-- C5: `IsHostAlive` probes 80, 443, 22 in that order with a timeout of one
second (1000000000 ns) and returns true at the first probe that succeeds:
the calls it has made are then the probes up to that one, no later port is
probed and `pingHost` is not called. -/
theorem IsHostAlive_short_circuit (net : Net) (host : String) :
    (ScanTCPPort net 0 host 80 1000000000 = true →
      IsHostAlive net host = (true, [Call.ScanTCPPort host 80 1000000000])) ∧
    (ScanTCPPort net 0 host 80 1000000000 = false →
      ScanTCPPort net 1 host 443 1000000000 = true →
      IsHostAlive net host = (true, [Call.ScanTCPPort host 80 1000000000,
        Call.ScanTCPPort host 443 1000000000])) ∧
    (ScanTCPPort net 0 host 80 1000000000 = false →
      ScanTCPPort net 1 host 443 1000000000 = false →
      ScanTCPPort net 2 host 22 1000000000 = true →
      IsHostAlive net host = (true, [Call.ScanTCPPort host 80 1000000000,
        Call.ScanTCPPort host 443 1000000000, Call.ScanTCPPort host 22 1000000000])) ∧
    ((IsHostAliveLoop net host 1000000000 [80, 443, 22] []).1 = true →
      (IsHostAlive net host).1 = true ∧ Call.pingHost host ∉ (IsHostAlive net host).2) := by
  refine ⟨?_, ?_, ?_, ?_⟩
  · intro h1
    simp [IsHostAlive, IsHostAliveLoop, Second, h1]
  · intro h1 h2
    simp [IsHostAlive, IsHostAliveLoop, Second, h1, h2]
  · intro h1 h2 h3
    simp [IsHostAlive, IsHostAliveLoop, Second, h1, h2, h3]
  · cases h1 : ScanTCPPort net 0 host 80 1000000000 <;>
      cases h2 : ScanTCPPort net 1 host 443 1000000000 <;>
      cases h3 : ScanTCPPort net 2 host 22 1000000000 <;>
      simp [IsHostAlive, IsHostAliveLoop, Second, h1, h2, h3]

/-- Witness of C5: a host with every port open is reported alive after the
probe of port 80 alone; with only 22 and 443 open, after 80 and 443; when
only the third dial succeeds, after 80, 443 and 22. -/
theorem IsHostAlive_short_circuit_witness :
    IsHostAlive netAllOpen "h" = (true, [Call.ScanTCPPort "h" 80 1000000000]) ∧
    IsHostAlive netSshHttps "example.com" =
      (true, [Call.ScanTCPPort "example.com" 80 1000000000,
        Call.ScanTCPPort "example.com" 443 1000000000]) ∧
    IsHostAlive netThirdDial "h" =
      (true, [Call.ScanTCPPort "h" 80 1000000000, Call.ScanTCPPort "h" 443 1000000000,
        Call.ScanTCPPort "h" 22 1000000000]) :=
  ⟨(IsHostAlive_short_circuit netAllOpen "h").1 (by decide),
    (IsHostAlive_short_circuit netSshHttps "example.com").2.1 (by decide) (by decide),
    (IsHostAlive_short_circuit netThirdDial "h").2.2.1 (by decide) (by decide) (by decide)⟩

/-- C6: when the probes of 80, 443 and 22 all fail, `IsHostAlive` returns the
verdict of `pingHost`, called once and last; and `pingHost` is false whenever
the address does not resolve or the ICMP socket cannot be opened. -/
theorem IsHostAlive_fallback (net : Net) (host : String) :
    (ScanTCPPort net 0 host 80 1000000000 = false →
      ScanTCPPort net 1 host 443 1000000000 = false →
      ScanTCPPort net 2 host 22 1000000000 = false →
      IsHostAlive net host = (pingHost net host, [Call.ScanTCPPort host 80 1000000000,
        Call.ScanTCPPort host 443 1000000000, Call.ScanTCPPort host 22 1000000000,
        Call.pingHost host])) ∧
    (net.ResolveIPAddr "ip4:icmp" host = none → pingHost net host = false) ∧
    (∀ addr, net.ResolveIPAddr "ip4:icmp" host = some addr →
      net.DialIP "ip4:icmp" addr = false → pingHost net host = false) := by
  refine ⟨?_, ?_, ?_⟩
  · intro h1 h2 h3
    simp [IsHostAlive, IsHostAliveLoop, Second, h1, h2, h3]
  · intro h
    simp [pingHost, h]
  · intro addr h1 h2
    simp [pingHost, h1, h2]

/-- Witness of C6: a host that refuses every connection is reported by the
verdict of the fallback, true when the ICMP socket opens and false when the
address does not resolve or the socket cannot be opened. -/
theorem IsHostAlive_fallback_witness :
    IsHostAlive netPingOnly "h" =
      (true, [Call.ScanTCPPort "h" 80 1000000000, Call.ScanTCPPort "h" 443 1000000000,
        Call.ScanTCPPort "h" 22 1000000000, Call.pingHost "h"]) ∧
    pingHost netAllClosed "h" = false ∧ pingHost netNoRawSocket "h" = false :=
  ⟨(IsHostAlive_fallback netPingOnly "h").1 (by decide) (by decide) (by decide),
    (IsHostAlive_fallback netAllClosed "h").2.1 rfl,
    (IsHostAlive_fallback netNoRawSocket "h").2.2 "h" rfl rfl⟩

/-! ## The claims about `parsePorts` -/

theorem parsePortsList_valid (l : List (List Char)) :
    ∀ (acc ports : List Int), (∀ p ∈ acc, 1 ≤ p ∧ p ≤ 65535) →
      parsePortsList l acc = .ok ports → ∀ p ∈ ports, 1 ≤ p ∧ p ≤ 65535 := by
  induction l with
  | nil =>
    intro acc ports hacc h
    simp only [parsePortsList, Except.ok.injEq] at h
    exact h ▸ hacc
  | cons x xs ih =>
    intro acc ports hacc h
    simp only [parsePortsList] at h
    split at h
    · exact ih acc ports hacc h
    · split at h
      · cases h
      · rename_i port hport
        split at h
        · cases h
        · rename_i hr
          apply ih (acc ++ [port]) ports _ h
          intro p hp
          rw [List.mem_append, List.mem_singleton] at hp
          rcases hp with hp | hp
          · exact hacc p hp
          · subst hp
            omega

theorem parsePorts_range (portsFlag : List Char) (ports : List Int)
    (hc : Contains portsFlag '-' = true) (h : parsePorts portsFlag = .ok ports) :
    ∃ a b, ports = [a, b] ∧ 1 ≤ a ∧ a ≤ b ∧ b ≤ 65535 := by
  simp only [parsePorts, hc, if_true] at h
  split at h
  · rename_i p0 p1 hsplit
    cases ha : Atoi p0 with
    | none => simp [ha] at h
    | some a =>
      cases hb : Atoi p1 with
      | none => simp [ha, hb] at h
      | some b =>
        simp only [ha, hb] at h
        split at h
        · cases h
        · split at h
          · cases h
          · simp only [Except.ok.injEq] at h
            exact ⟨a, b, h.symm, by omega, by omega, by omega⟩
  · cases h

/-- C9: for every input string, when `parsePorts` returns without error every
port of its result lies in [1, 65535]; when the input contains a hyphen the
result is the two-element list `[start, end]` with `1 ≤ start ≤ end ≤ 65535`;
and the pair `(ports[0], ports[len(ports)-1])` that `main` passes to
`ScanPortRange` satisfies `1 ≤ startPort ≤ endPort ≤ 65535`. -/
theorem parsePorts_valid (portsFlag : List Char) (ports : List Int)
    (h : parsePorts portsFlag = .ok ports) :
    (∀ p ∈ ports, 1 ≤ p ∧ p ≤ 65535) ∧
    (Contains portsFlag '-' = true →
      ∃ a b, ports = [a, b] ∧ 1 ≤ a ∧ a ≤ b ∧ b ≤ 65535) ∧
    (∀ startPort endPort, rangeArgs portsFlag ports = some (startPort, endPort) →
      1 ≤ startPort ∧ startPort ≤ endPort ∧ endPort ≤ 65535) := by
  refine ⟨?_, fun hc => parsePorts_range portsFlag ports hc h, ?_⟩
  · cases hc : Contains portsFlag '-' with
    | true =>
      obtain ⟨a, b, rfl, h1, h2, h3⟩ := parsePorts_range portsFlag ports hc h
      intro p hp
      simp only [List.mem_cons, List.mem_singleton, List.not_mem_nil, or_false] at hp
      rcases hp with rfl | rfl <;> omega
    | false =>
      simp only [parsePorts, hc, Bool.false_eq_true, if_false] at h
      exact parsePortsList_valid _ [] ports (by simp) h
  · intro startPort endPort hr
    unfold rangeArgs at hr
    split at hr
    · rename_i hcond
      simp only [Bool.and_eq_true] at hcond
      obtain ⟨a, b, rfl, h1, h2, h3⟩ := parsePorts_range portsFlag ports hcond.1 h
      simp at hr
      obtain ⟨rfl, rfl⟩ := hr
      exact ⟨h1, h2, h3⟩
    · cases hr

/-- Witness of C9: `1-1000` parses to `[1, 1000]` and is scanned as the
range (1, 1000); ` 22, 80,443` parses to the three ports. -/
theorem parsePorts_valid_witness :
    parsePorts "1-1000".toList = .ok [1, 1000] ∧
    rangeArgs "1-1000".toList [1, 1000] = some (1, 1000) ∧
    parsePorts " 22, 80,443".toList = .ok [22, 80, 443] ∧
    ((∀ p ∈ [(1 : Int), 1000], 1 ≤ p ∧ p ≤ 65535) ∧
    (Contains "1-1000".toList '-' = true →
      ∃ a b, [(1 : Int), 1000] = [a, b] ∧ 1 ≤ a ∧ a ≤ b ∧ b ≤ 65535) ∧
    (∀ startPort endPort, rangeArgs "1-1000".toList [1, 1000] = some (startPort, endPort) →
      1 ≤ startPort ∧ startPort ≤ endPort ∧ endPort ≤ 65535)) :=
  ⟨rfl, rfl, rfl, parsePorts_valid "1-1000".toList [1, 1000] rfl⟩

end Scanner
